import Mathlib

/-!
Shallow embedding of the trade-simulation engine `run_r_backtest` from
`Core/backtester.py`, together with theorems checking the specification
claims about it.

Modelling conventions:
* Prices are rationals (`ℚ`); the source stores Python floats but every value
  the claims mention (`-1.0`, `0.0`, the risk-reward parameter, price levels)
  is assigned literally, never produced by lossy float arithmetic.
* A value that can be `NaN` in the source (`entry_price`, `sl_price`, tested
  with `pd.isna`) is modelled as `Option ℚ`, with `none` standing for `NaN`.
* A DataFrame row is a structure carrying the contract columns (`signal`,
  `entry_price`, `sl_price`), its timestamp (`index`, the pandas row Index,
  modelled as `ℕ`), and the remaining numeric columns as an association list
  `cells`, read with `Row.get` (the embedding of `getattr(row, col)`).
* `risk_reward_ratio` is abbreviated `rrr` and `breakeven_trigger_r` is kept;
  the `status_callback` parameter is an optional `String → Unit` consumer,
  invoked for its (absent, in a pure model) side effect only.
* The source duplicates the per-trade management block verbatim between the
  multi-trade branch (lines 25-43) and the single-trade branch (lines 61-78);
  the embedding factors it once as `be_update` / `exit_check` / `step_trade`
  and uses it from both branches.
-/

namespace Backtester

/-- Trade direction, stored in the source as the strings LONG / SHORT. -/
inductive Direction where
  | LONG
  | SHORT
deriving DecidableEq, Repr

/-- An open position, mirroring the dict built at `backtester.py` lines 52/88:
keys entry, sl, tp, be_price, direction, entry_time, be_triggered. -/
structure Trade where
  entry : ℚ
  sl : ℚ
  tp : ℚ
  be_price : ℚ
  direction : Direction
  entry_time : ℕ
  be_triggered : Bool
deriving DecidableEq, Repr

/-- A completed-trade record, mirroring the dict appended to `trades_log`
(lines 42/77). -/
structure TradeRecord where
  entryTime : ℕ
  entryPrice : ℚ
  direction : Direction
  exitTime : ℕ
  exitPrice : ℚ
  exitReason : String
  rMultiple : ℚ
deriving DecidableEq, Repr

/-- One row of the input DataFrame: the pandas Index (timestamp), the signal
contract columns, and the remaining named numeric columns as `cells`. -/
structure Row where
  index : ℕ
  signal : ℤ
  entry_price : Option ℚ
  sl_price : Option ℚ
  cells : List (String × ℚ)
deriving DecidableEq, Repr

/-- Embedding of `getattr(row, col)` for the execution high/low columns. -/
def Row.get (row : Row) (c : String) : ℚ :=
  (row.cells.lookup c).getD 0

/-- The input DataFrame: its column index plus its rows. -/
structure DataFrame where
  columns : List String
  rows : List Row
deriving DecidableEq, Repr

/-- Breakeven arming (lines 26-29 / 61-64): when breakeven is in use and not
yet triggered, a favorable excursion to the breakeven price moves the stop to
the entry price and latches `be_triggered`. -/
def be_update (use_breakeven : Bool) (hi lo : ℚ) (t : Trade) : Trade :=
  if use_breakeven = true ∧ t.be_triggered = false ∧
      ((t.direction = Direction.LONG ∧ t.be_price ≤ hi) ∨
       (t.direction = Direction.SHORT ∧ lo ≤ t.be_price)) then
    { t with sl := t.entry, be_triggered := true }
  else t

/-- Exit detection (lines 31-39 / 66-74): the four `if`/`elif` arms in source
order — LONG stop, SHORT stop, LONG target, SHORT target.  Returns the exit
reason, exit price and r-multiple when an exit fires. -/
def exit_check (rrr hi lo : ℚ) (t : Trade) : Option (String × ℚ × ℚ) :=
  if t.direction = Direction.LONG ∧ lo ≤ t.sl then
    some ("Stop Loss", t.sl, if t.be_triggered = true then (0 : ℚ) else -1)
  else if t.direction = Direction.SHORT ∧ t.sl ≤ hi then
    some ("Stop Loss", t.sl, if t.be_triggered = true then (0 : ℚ) else -1)
  else if t.direction = Direction.LONG ∧ t.tp ≤ hi then
    some ("Take Profit", t.tp, rrr)
  else if t.direction = Direction.SHORT ∧ lo ≤ t.tp then
    some ("Take Profit", t.tp, rrr)
  else
    none

/-- One management step for one open trade on one bar: breakeven arming first
(lines 26-29 / 61-64), then the exit check (lines 31-39 / 66-74) against the
possibly-moved stop.  Returns the updated trade and the exit, if any. -/
def step_trade (use_breakeven : Bool) (rrr hi lo : ℚ) (t : Trade) :
    Trade × Option (String × ℚ × ℚ) :=
  (be_update use_breakeven hi lo t,
   exit_check rrr hi lo (be_update use_breakeven hi lo t))

/-- The completed-trade record appended at lines 42/77. -/
def mkRecord (t : Trade) (exitTime : ℕ) (reason : String) (price r : ℚ) :
    TradeRecord :=
  { entryTime := t.entry_time, entryPrice := t.entry, direction := t.direction,
    exitTime := exitTime, exitPrice := price, exitReason := reason,
    rMultiple := r }

/-- Entry construction (lines 45-52 / 80-88): a nonzero signal with defined
prices and nonzero risk yields a new position; otherwise nothing is opened.
`none` for `entry_price`/`sl_price` models `pd.isna`. -/
def try_open (rrr breakeven_trigger_r : ℚ) (row : Row) : Option Trade :=
  if row.signal ≠ 0 then
    match row.entry_price, row.sl_price with
    | some entry_price, some sl_price =>
      if |entry_price - sl_price| = 0 then none
      else
        some { entry := entry_price
               sl := sl_price
               tp := if (if row.signal = 1 then Direction.LONG else Direction.SHORT)
                        = Direction.LONG then
                       entry_price + |entry_price - sl_price| * rrr
                     else entry_price - |entry_price - sl_price| * rrr
               be_price := if (if row.signal = 1 then Direction.LONG else Direction.SHORT)
                              = Direction.LONG then
                             entry_price + |entry_price - sl_price| * breakeven_trigger_r
                           else entry_price - |entry_price - sl_price| * breakeven_trigger_r
               direction := if row.signal = 1 then Direction.LONG else Direction.SHORT
               entry_time := row.index
               be_triggered := false }
    | _, _ => none
  else none

/-- A signal row that the per-signal validation (lines 47/82) rejects:
missing entry price, missing stop price, or zero risk. -/
def invalid_signal_row (row : Row) : Prop :=
  row.entry_price = none ∨ row.sl_price = none ∨
  ∃ e s, row.entry_price = some e ∧ row.sl_price = some s ∧ |e - s| = 0

/-- The inner `for trade in list(active_trades)` loop of the multi-trade
branch (lines 25-43): every open trade is stepped once on the bar; exits are
appended to the log in iteration order and removed from the open set,
survivors keep their (possibly breakeven-updated) state and their order. -/
def process_trades (use_breakeven : Bool) (rrr hi lo : ℚ) (exitTime : ℕ) :
    List Trade → List Trade × List TradeRecord
  | [] => ([], [])
  | t :: ts =>
    match step_trade use_breakeven rrr hi lo t,
          process_trades use_breakeven rrr hi lo exitTime ts with
    | (t1, some (reason, price, r)), (rest, recs) =>
      (rest, mkRecord t1 exitTime reason price r :: recs)
    | (t1, none), (rest, recs) => (t1 :: rest, recs)

/-- One full row of the multi-trade branch (lines 22-52): manage all open
trades, then admit the new signal unconditionally (appended at the end of the
open set). -/
def process_row_multi (use_breakeven : Bool) (rrr breakeven_trigger_r : ℚ)
    (exec_high_col exec_low_col : String)
    (st : List Trade × List TradeRecord) (row : Row) :
    List Trade × List TradeRecord :=
  match process_trades use_breakeven rrr (row.get exec_high_col)
      (row.get exec_low_col) row.index st.1 with
  | (active2, recs) =>
    match try_open rrr breakeven_trigger_r row with
    | some t => (active2 ++ [t], st.2 ++ recs)
    | none => (active2, st.2 ++ recs)

/-- One full row of the single-trade branch (lines 57-88): manage the open
position if any; the admission check `not in_position and row.signal != 0`
runs after the exit handling, so a slot freed this bar admits this bar. -/
def process_row_single (use_breakeven : Bool) (rrr breakeven_trigger_r : ℚ)
    (exec_high_col exec_low_col : String)
    (st : Option Trade × List TradeRecord) (row : Row) :
    Option Trade × List TradeRecord :=
  match st with
  | (some t, log) =>
    match step_trade use_breakeven rrr (row.get exec_high_col)
        (row.get exec_low_col) t with
    | (t1, some (reason, price, r)) =>
      (try_open rrr breakeven_trigger_r row,
       log ++ [mkRecord t1 row.index reason price r])
    | (t1, none) => (some t1, log)
  | (none, log) => (try_open rrr breakeven_trigger_r row, log)

/-- The output column index, in the key order of the record dicts. -/
def ledger_schema : List String :=
  ["Entry Time", "Entry Price", "Direction", "Exit Time", "Exit Price",
   "Exit Reason", "R-Multiple"]

/-- The returned table: its column index plus its records. -/
structure Ledger where
  columns : List String
  records : List TradeRecord
deriving DecidableEq, Repr

/-- Embedding of `pd.DataFrame(trades_log)` (line 91): the column index comes
from the record dict keys, so an empty log yields a frame with no columns. -/
def mkLedger (recs : List TradeRecord) : Ledger :=
  { columns := if recs.isEmpty then [] else ledger_schema, records := recs }

/-- The engine `run_r_backtest` (lines 5-91): validate the execution-timeframe
columns, walk the rows once through the configured branch, and hand back the
ledger.  The `status_callback` parameter only receives progress text (line 90)
and cannot influence the computation, so the pure embedding carries it without
consulting it. -/
def run_r_backtest (df : DataFrame) (rrr : ℚ) (use_breakeven : Bool)
    (breakeven_trigger_r : ℚ) (execution_timeframe : String)
    (allow_multiple_trades : Bool) (status_callback : Option (String → Unit)) :
    Except String Ledger :=
  if ("high_" ++ execution_timeframe) ∈ df.columns ∧
      ("low_" ++ execution_timeframe) ∈ df.columns then
    Except.ok
      (mkLedger
        (if allow_multiple_trades then
          (df.rows.foldl
            (process_row_multi use_breakeven rrr breakeven_trigger_r
              ("high_" ++ execution_timeframe) ("low_" ++ execution_timeframe))
            ([], [])).2
        else
          (df.rows.foldl
            (process_row_single use_breakeven rrr breakeven_trigger_r
              ("high_" ++ execution_timeframe) ("low_" ++ execution_timeframe))
            (Option.none, [])).2))
  else
    Except.error ("Execution timeframe columns " ++ ("high_" ++ execution_timeframe)
      ++ " or " ++ ("low_" ++ execution_timeframe) ++ " not found in DataFrame.")

/-- Sample open LONG position: entry 100, stop 99, target 102, breakeven
trigger price 101 (risk 1, risk-reward 2, breakeven trigger 1R). -/
def tradeA : Trade :=
  { entry := 100, sl := 99, tp := 102, be_price := 101,
    direction := Direction.LONG, entry_time := 0, be_triggered := false }

/-- Sample row carrying a valid LONG signal (entry 100, stop 99) on a bar with
execution high 100 and low 98. -/
def rowC : Row :=
  { index := 3, signal := 1, entry_price := some 100, sl_price := some 99,
    cells := [("high_M1", 100), ("low_M1", 98)] }

/-- The position opened from `rowC` at risk-reward 2 and breakeven trigger 1R. -/
def tradeC : Trade :=
  { entry := 100, sl := 99, tp := 102, be_price := 101,
    direction := Direction.LONG, entry_time := 3, be_triggered := false }

/-- Sample row carrying a zero-risk signal: entry and stop both 100. -/
def rowBad : Row :=
  { index := 1, signal := 1, entry_price := some 100, sl_price := some 100,
    cells := [("high_M1", 101), ("low_M1", 99)] }

/-- Sample bar 0: a LONG signal (entry 100, stop 99) on a quiet bar. -/
def rowW0 : Row :=
  { index := 0, signal := 1, entry_price := some 100, sl_price := some 99,
    cells := [("high_M1", 100), ("low_M1", 100)] }

/-- Sample bar 1: high 101 arms breakeven, low 100 touches the moved stop. -/
def rowW1 : Row :=
  { index := 1, signal := 0, entry_price := none, sl_price := none,
    cells := [("high_M1", 101), ("low_M1", 100)] }

/-- Sample bar 2: quiet bar with no signal and no open position. -/
def rowW2 : Row :=
  { index := 2, signal := 0, entry_price := none, sl_price := none,
    cells := [("high_M1", 103), ("low_M1", 97)] }

/-- Three-row sample series: a LONG signal at time 0, then a bar that arms
breakeven and touches the moved stop, then a quiet bar. -/
def dfW : DataFrame :=
  { columns := ["high_M1", "low_M1"], rows := [rowW0, rowW1, rowW2] }

/-- The single trade record the engine produces on `dfW` in single-trade mode
with breakeven on, risk-reward 2 and breakeven trigger 1R: a breakeven stop
exit at the entry price with r-multiple 0. -/
def recW : TradeRecord :=
  { entryTime := 0, entryPrice := 100, direction := Direction.LONG,
    exitTime := 1, exitPrice := 100, exitReason := "Stop Loss", rMultiple := 0 }

/-- The ledger the engine produces on `dfW` in single-trade mode with
breakeven on, risk-reward 2 and breakeven trigger 1R. -/
def ledgerW : Ledger :=
  { columns := ledger_schema, records := [recW] }

/-- Breakeven arming never changes the trade direction. -/
theorem be_update_direction (u : Bool) (hi lo : ℚ) (t : Trade) :
    (be_update u hi lo t).direction = t.direction := by
  unfold be_update; split <;> rfl

/-- Breakeven arming never changes the entry price. -/
theorem be_update_entry (u : Bool) (hi lo : ℚ) (t : Trade) :
    (be_update u hi lo t).entry = t.entry := by
  unfold be_update; split <;> rfl

/-- Breakeven arming never changes the take-profit level. -/
theorem be_update_tp (u : Bool) (hi lo : ℚ) (t : Trade) :
    (be_update u hi lo t).tp = t.tp := by
  unfold be_update; split <;> rfl

/-- Breakeven arming never changes the entry time. -/
theorem be_update_entry_time (u : Bool) (hi lo : ℚ) (t : Trade) :
    (be_update u hi lo t).entry_time = t.entry_time := by
  unfold be_update; split <;> rfl

/-- The stop after the breakeven check is the original stop or the entry. -/
theorem be_update_sl_cases (u : Bool) (hi lo : ℚ) (t : Trade) :
    (be_update u hi lo t).sl = t.sl ∨ (be_update u hi lo t).sl = t.entry := by
  unfold be_update; split
  · exact Or.inr rfl
  · exact Or.inl rfl

/-- The breakeven latch never reverts from true to false. -/
theorem be_update_latch (u : Bool) (hi lo : ℚ) (t : Trade)
    (h : t.be_triggered = true) : (be_update u hi lo t).be_triggered = true := by
  unfold be_update; split
  · rfl
  · exact h

/-- Every exit reported by `exit_check` is a stop at the current stop level
(with r-multiple 0 when breakeven is latched, else -1) or a target hit at the
take-profit level (with r-multiple equal to the risk-reward parameter). -/
theorem exit_check_eq_some (rrr hi lo : ℚ) (t : Trade) (reason : String)
    (price r : ℚ) (h : exit_check rrr hi lo t = some (reason, price, r)) :
    (reason = "Stop Loss" ∧ price = t.sl ∧
      r = (if t.be_triggered = true then (0 : ℚ) else -1)) ∨
    (reason = "Take Profit" ∧ price = t.tp ∧ r = rrr) := by
  unfold exit_check at h
  split_ifs at h <;>
    simp only [Option.some.injEq, Prod.mk.injEq] at h <;>
    obtain ⟨u1, u2, u3⟩ := h <;> subst u1 <;> subst u2 <;> subst u3 <;> simp_all

/-- A latched breakeven forces any stop exit to carry r-multiple 0. -/
theorem exit_check_latched_stop (rrr hi lo : ℚ) (t : Trade) (price r : ℚ)
    (hbe : t.be_triggered = true)
    (h : exit_check rrr hi lo t = some ("Stop Loss", price, r)) : r = 0 := by
  rcases exit_check_eq_some rrr hi lo t "Stop Loss" price r h with
    ⟨-, -, hr⟩ | ⟨hr, -, -⟩
  · rw [hbe] at hr; simpa using hr
  · simp at hr

/-- The r-multiple of any exit is -1, 0 or the risk-reward parameter. -/
theorem exit_check_r_values (rrr hi lo : ℚ) (t : Trade) (reason : String)
    (price r : ℚ) (h : exit_check rrr hi lo t = some (reason, price, r)) :
    r = -1 ∨ r = 0 ∨ r = rrr := by
  rcases exit_check_eq_some rrr hi lo t reason price r h with
    ⟨-, -, hr⟩ | ⟨-, -, hr⟩
  · cases hb : t.be_triggered <;> rw [hb] at hr <;> simp at hr
    · exact Or.inl hr
    · exact Or.inr (Or.inl hr)
  · exact Or.inr (Or.inr hr)

/-- C1: on any bar where both the stop-loss and the take-profit levels of an
open position are touched (LONG: execution low at or below the stop and
execution high at or above the target; symmetrically for SHORT), the exit
check reports a Stop Loss exit, never a Take Profit exit; this check is the
one invoked by `step_trade` in both the single-position and the
multi-position branch. -/
theorem stop_loss_beats_take_profit (rrr hi lo : ℚ) (t : Trade)
    (hboth : (t.direction = Direction.LONG ∧ lo ≤ t.sl ∧ t.tp ≤ hi) ∨
             (t.direction = Direction.SHORT ∧ t.sl ≤ hi ∧ lo ≤ t.tp)) :
    ∃ price r, exit_check rrr hi lo t = some ("Stop Loss", price, r) := by
  refine ⟨t.sl, if t.be_triggered = true then (0 : ℚ) else -1, ?_⟩
  rcases hboth with ⟨hd, hsl, htp⟩ | ⟨hd, hsl, htp⟩ <;>
    simp [exit_check, hd, hsl]

/-- Concrete run of C1: on a bar with high 103 and low 98, `tradeA` touches
both its stop 99 and its target 102, and the exit is a Stop Loss. -/
theorem stop_loss_beats_take_profit_witness :
    (tradeA.direction = Direction.LONG ∧ (98 : ℚ) ≤ tradeA.sl ∧
      tradeA.tp ≤ (103 : ℚ)) ∧
    ∃ price r, exit_check 2 103 98 tradeA = some ("Stop Loss", price, r) :=
  ⟨⟨rfl, by norm_num [tradeA], by norm_num [tradeA]⟩,
   stop_loss_beats_take_profit 2 103 98 tradeA
     (Or.inl ⟨rfl, by norm_num [tradeA], by norm_num [tradeA]⟩)⟩

/-- C3: with breakeven in use and not yet triggered, the arming check runs
before the exit check of the same bar; arming moves the stop to the entry and
latches the trigger, so a bar that arms breakeven and also touches the moved
stop exits on that same bar at the moved stop with r-multiple 0. -/
theorem breakeven_arming_precedes_exit (rrr hi lo : ℚ) (t : Trade)
    (hbe : t.be_triggered = false)
    (harm : (t.direction = Direction.LONG ∧ t.be_price ≤ hi) ∨
            (t.direction = Direction.SHORT ∧ lo ≤ t.be_price))
    (htouch : (t.direction = Direction.LONG ∧ lo ≤ t.entry) ∨
              (t.direction = Direction.SHORT ∧ t.entry ≤ hi)) :
    (be_update true hi lo t).sl = t.entry ∧
    (be_update true hi lo t).be_triggered = true ∧
    (step_trade true rrr hi lo t).2 = some ("Stop Loss", t.entry, 0) := by
  have hupd : be_update true hi lo t = { t with sl := t.entry, be_triggered := true } := by
    unfold be_update
    exact if_pos ⟨rfl, hbe, harm⟩
  refine ⟨by rw [hupd], by rw [hupd], ?_⟩
  show exit_check rrr hi lo (be_update true hi lo t) = _
  rw [hupd]
  rcases htouch with ⟨hd, hle⟩ | ⟨hd, hle⟩ <;> simp [exit_check, hd, hle]

/-- Concrete run of C3: on a bar with high 101 and low 100, `tradeA` arms
breakeven (trigger 101) and exits the same bar at its moved stop 100 with
r-multiple 0. -/
theorem breakeven_arming_precedes_exit_witness :
    (tradeA.be_triggered = false ∧ tradeA.direction = Direction.LONG ∧
      tradeA.be_price ≤ (101 : ℚ) ∧ (100 : ℚ) ≤ tradeA.entry) ∧
    (step_trade true 2 101 100 tradeA).2 = some ("Stop Loss", tradeA.entry, 0) :=
  ⟨⟨rfl, rfl, by norm_num [tradeA], by norm_num [tradeA]⟩,
   (breakeven_arming_precedes_exit 2 101 100 tradeA rfl
     (Or.inl ⟨rfl, by norm_num [tradeA]⟩)
     (Or.inl ⟨rfl, by norm_num [tradeA]⟩)).2.2⟩

/-- Characterization of a successful entry: the signal is nonzero, both
prices are defined, the risk is nonzero, and the opened position carries
exactly the fields built at lines 48-52 / 83-88. -/
theorem try_open_some (rrr betr : ℚ) (row : Row) (t : Trade)
    (h : try_open rrr betr row = some t) :
    row.signal ≠ 0 ∧
    ∃ e s, row.entry_price = some e ∧ row.sl_price = some s ∧ |e - s| ≠ 0 ∧
      t = { entry := e, sl := s,
            tp := if (if row.signal = 1 then Direction.LONG else Direction.SHORT)
                    = Direction.LONG then e + |e - s| * rrr
                  else e - |e - s| * rrr,
            be_price := if (if row.signal = 1 then Direction.LONG else Direction.SHORT)
                          = Direction.LONG then e + |e - s| * betr
                        else e - |e - s| * betr,
            direction := if row.signal = 1 then Direction.LONG else Direction.SHORT,
            entry_time := row.index, be_triggered := false } := by
  unfold try_open at h
  split at h
  · next hs =>
    refine ⟨hs, ?_⟩
    split at h
    next e s he hsl =>
      by_cases hz : |e - s| = 0
      · rw [if_pos hz] at h
        simp at h
      · rw [if_neg hz] at h
        injection h with h2
        exact ⟨e, s, he, hsl, hz, h2.symm⟩
    next a b hno =>
      simp at h
  · next hs =>
    simp at h

/-- A successfully opened position timestamps its entry at the admitting row. -/
theorem try_open_entry_time (rrr betr : ℚ) (row : Row) (t : Trade)
    (h : try_open rrr betr row = some t) : t.entry_time = row.index := by
  obtain ⟨-, e, s, -, -, -, ht⟩ := try_open_some rrr betr row t h
  rw [ht]

/-- A row failing the per-signal validation opens nothing. -/
theorem try_open_invalid_none (rrr betr : ℚ) (row : Row)
    (h : invalid_signal_row row) : try_open rrr betr row = none := by
  unfold try_open
  split
  · split
    next e s he hsl =>
      rcases h with h1 | h1 | ⟨e0, s0, he0, hs0, hz0⟩
      · rw [h1] at he; cases he
      · rw [h1] at hsl; cases hsl
      · have hee : e0 = e := Option.some.inj (he0.symm.trans he)
        have hss : s0 = s := Option.some.inj (hs0.symm.trans hsl)
        subst hee; subst hss
        rw [if_pos hz0]
    next a b hno => rfl
  · rfl

/-- A zeroed signal opens nothing. -/
theorem try_open_signal_zero (rrr betr : ℚ) (row : Row)
    (h : row.signal = 0) : try_open rrr betr row = none := by
  unfold try_open
  rw [if_neg]
  simp [h]

/-- C4: exits are processed before entry admission on every step.  In
single-position mode a position that closes on a bar frees the slot and a
valid signal on that same bar is admitted; a position that survives the bar
blocks any new signal; an empty slot admits a valid signal; in multi-position
mode a valid signal is always admitted. -/
theorem exits_before_entry_admission (u : Bool) (rrr betr : ℚ)
    (hc lc : String) (row : Row) (log : List TradeRecord) :
    (∀ t0 t1 reason price r tNew,
      step_trade u rrr (row.get hc) (row.get lc) t0 = (t1, some (reason, price, r)) →
      try_open rrr betr row = some tNew →
      process_row_single u rrr betr hc lc (some t0, log) row
        = (some tNew, log ++ [mkRecord t1 row.index reason price r])) ∧
    (∀ t0 t1,
      step_trade u rrr (row.get hc) (row.get lc) t0 = (t1, none) →
      (process_row_single u rrr betr hc lc (some t0, log) row).1 = some t1) ∧
    (∀ tNew, try_open rrr betr row = some tNew →
      (process_row_single u rrr betr hc lc (none, log) row).1 = some tNew) ∧
    (∀ active tNew, try_open rrr betr row = some tNew →
      tNew ∈ (process_row_multi u rrr betr hc lc (active, log) row).1) := by
  refine ⟨?_, ?_, ?_, ?_⟩
  · intro t0 t1 reason price r tNew hstep hopen
    simp only [process_row_single, hstep, hopen]
  · intro t0 t1 hstep
    simp only [process_row_single, hstep]
  · intro tNew hopen
    simp only [process_row_single, hopen]
  · intro active tNew hopen
    simp only [process_row_multi]
    rcases hpt : process_trades u rrr (row.get hc) (row.get lc) row.index active with
      ⟨a2, recs⟩
    simp [hopen]

/-- Concrete run of C4: on `rowC`, the open `tradeA` stops out and the new
signal of the very same bar is admitted into the freed slot. -/
theorem exits_before_entry_admission_witness :
    (step_trade false 2 (rowC.get "high_M1") (rowC.get "low_M1") tradeA
       = (tradeA, some ("Stop Loss", 99, -1)) ∧
     try_open 2 1 rowC = some tradeC) ∧
    process_row_single false 2 1 "high_M1" "low_M1" (some tradeA, []) rowC
      = (some tradeC, [] ++ [mkRecord tradeA rowC.index "Stop Loss" 99 (-1)]) :=
  ⟨⟨by simp [step_trade, be_update, exit_check, tradeA, rowC, Row.get, List.lookup] <;> norm_num,
    by simp [try_open, rowC, tradeC] <;> norm_num⟩,
   (exits_before_entry_admission false 2 1 "high_M1" "low_M1" rowC []).1
     tradeA tradeA "Stop Loss" 99 (-1) tradeC
     (by simp [step_trade, be_update, exit_check, tradeA, rowC, Row.get, List.lookup] <;> norm_num)
     (by simp [try_open, rowC, tradeC] <;> norm_num)⟩

/-- C5: a run whose execution-timeframe high/low columns are absent from the
input fails with an error and produces no ledger; a run whose columns are
present always returns a ledger — the embedding raises no other error. -/
theorem missing_columns_config_error (df : DataFrame) (rrr : ℚ) (u : Bool)
    (betr : ℚ) (tf : String) (multi : Bool) (cb : Option (String → Unit)) :
    ((("high_" ++ tf) ∉ df.columns ∨ ("low_" ++ tf) ∉ df.columns) →
      ∃ msg, run_r_backtest df rrr u betr tf multi cb = Except.error msg) ∧
    ((("high_" ++ tf) ∈ df.columns ∧ ("low_" ++ tf) ∈ df.columns) →
      ∃ L, run_r_backtest df rrr u betr tf multi cb = Except.ok L) := by
  constructor
  · intro h
    have hn : ¬ (("high_" ++ tf) ∈ df.columns ∧ ("low_" ++ tf) ∈ df.columns) := by
      tauto
    exact ⟨_, by unfold run_r_backtest; rw [if_neg hn]⟩
  · intro h
    exact ⟨_, by unfold run_r_backtest; rw [if_pos h]⟩

/-- Concrete run of C5: a frame lacking the high column is rejected. -/
theorem missing_columns_config_error_witness :
    (("high_" ++ "M1" : String) ∉ (DataFrame.mk ["low_M1"] []).columns ∨
      ("low_" ++ "M1" : String) ∉ (DataFrame.mk ["low_M1"] []).columns) ∧
    ∃ msg, run_r_backtest ⟨["low_M1"], []⟩ 2 false 1 "M1" false none
      = Except.error msg :=
  ⟨Or.inl (by simp),
   (missing_columns_config_error ⟨["low_M1"], []⟩ 2 false 1 "M1" false none).1
     (Or.inl (by simp))⟩

/-- C9: the returned ledger is a pure function of the input frame and the
configuration parameters; the status callback argument never influences the
result, and the embedding touches no external state by construction. -/
theorem ledger_deterministic (df : DataFrame) (rrr : ℚ) (u : Bool) (betr : ℚ)
    (tf : String) (multi : Bool) (cb1 cb2 : Option (String → Unit)) :
    run_r_backtest df rrr u betr tf multi cb1 =
      run_r_backtest df rrr u betr tf multi cb2 := rfl

/-- C10: exit prices are always level prices, never the bar extremes.  A
newly opened position carries entry price, stop price, and a take-profit at
entry plus (LONG) or minus (SHORT) risk times the risk-reward parameter; any
stop exit is priced at the stop level current on that bar (the original stop,
or the entry once breakeven armed), and any target exit at the unchanged
take-profit level. -/
theorem exit_price_is_level (u : Bool) (rrr betr hi lo : ℚ) (t : Trade)
    (row : Row) :
    (∀ e s tNew, row.entry_price = some e → row.sl_price = some s →
      try_open rrr betr row = some tNew →
      tNew.entry = e ∧ tNew.sl = s ∧
      tNew.tp = (if tNew.direction = Direction.LONG then e + |e - s| * rrr
                 else e - |e - s| * rrr)) ∧
    (∀ reason price r, (step_trade u rrr hi lo t).2 = some (reason, price, r) →
      (reason = "Stop Loss" ∧ price = (be_update u hi lo t).sl ∧
        ((be_update u hi lo t).sl = t.sl ∨ (be_update u hi lo t).sl = t.entry)) ∨
      (reason = "Take Profit" ∧ price = t.tp)) := by
  constructor
  · intro e s tNew he hs hopen
    obtain ⟨-, e0, s0, he0, hs0, -, ht⟩ := try_open_some rrr betr row tNew hopen
    have h1 : e0 = e := Option.some.inj (he0.symm.trans he)
    have h2 : s0 = s := Option.some.inj (hs0.symm.trans hs)
    subst h1; subst h2; subst ht
    exact ⟨rfl, rfl, rfl⟩
  · intro reason price r h
    have h1 : exit_check rrr hi lo (be_update u hi lo t) = some (reason, price, r) := h
    rcases exit_check_eq_some rrr hi lo (be_update u hi lo t) reason price r h1 with
      ⟨hr, hp, -⟩ | ⟨hr, hp, -⟩
    · exact Or.inl ⟨hr, hp, be_update_sl_cases u hi lo t⟩
    · exact Or.inr ⟨hr, hp.trans (be_update_tp u hi lo t)⟩

/-- Concrete run of C10: the position opened from `rowC` carries entry 100,
stop 99 and take-profit at entry plus risk times the risk-reward parameter. -/
theorem exit_price_is_level_witness :
    (rowC.entry_price = some 100 ∧ rowC.sl_price = some 99 ∧
      try_open 2 1 rowC = some tradeC) ∧
    (tradeC.entry = 100 ∧ tradeC.sl = 99 ∧
      tradeC.tp = (if tradeC.direction = Direction.LONG
                   then (100 : ℚ) + |(100 : ℚ) - 99| * 2
                   else (100 : ℚ) - |(100 : ℚ) - 99| * 2)) :=
  ⟨⟨rfl, rfl, by simp [try_open, rowC, tradeC] <;> norm_num⟩,
   (exit_price_is_level false 2 1 0 0 tradeA rowC).1 100 99 tradeC rfl rfl
     (by simp [try_open, rowC, tradeC] <;> norm_num)⟩

/-- An invariant preserved by every step of a left fold holds at the end. -/
theorem foldl_inv {σ α : Type _} (f : σ → α → σ) (Inv : σ → Prop)
    (hstep : ∀ s a, Inv s → Inv (f s a)) :
    ∀ (l : List α) (s : σ), Inv s → Inv (List.foldl f s l)
  | [], _, hs => hs
  | a :: l, s, hs => foldl_inv f Inv hstep l (f s a) (hstep s a hs)

/-- Appending one element related to every element of a chain keeps it a
chain. -/
theorem chain_append_one {α : Type _} {R : α → α → Prop} (l : List α) (b : α)
    (hc : List.Chain' R l) (hr : ∀ x ∈ l, R x b) :
    List.Chain' R (l ++ [b]) := by
  induction l with
  | nil => simp
  | cons a l2 ih =>
    rw [List.cons_append, List.chain'_cons']
    refine ⟨?_, ih (List.chain'_cons'.mp hc).2
      (fun x hx => hr x (List.mem_cons_of_mem a hx))⟩
    intro y hy
    cases l2 with
    | nil =>
      simp at hy
      subst hy
      exact hr a (by simp)
    | cons c l3 =>
      simp at hy
      subst hy
      exact (List.chain'_cons'.mp hc).1 _ rfl

/-- Every record produced by the per-bar multi-trade loop carries an
r-multiple of -1, 0 or the risk-reward parameter. -/
theorem process_trades_r_values (u : Bool) (rrr hi lo : ℚ) (k : ℕ) :
    ∀ (ts : List Trade) (rec : TradeRecord),
      rec ∈ (process_trades u rrr hi lo k ts).2 →
      rec.rMultiple = -1 ∨ rec.rMultiple = 0 ∨ rec.rMultiple = rrr := by
  intro ts
  induction ts with
  | nil =>
    intro rec hmem
    simp [process_trades] at hmem
  | cons t ts ih =>
    intro rec hmem
    simp only [process_trades] at hmem
    rcases hstep : step_trade u rrr hi lo t with ⟨t1, ex⟩
    rcases hrest : process_trades u rrr hi lo k ts with ⟨rest, recs⟩
    rw [hstep, hrest] at hmem
    cases ex with
    | none =>
      simp at hmem
      exact ih rec (by rw [hrest]; exact hmem)
    | some exv =>
      rcases exv with ⟨reason, price, r⟩
      simp at hmem
      rcases hmem with hmem | hmem
      · have hex : exit_check rrr hi lo (be_update u hi lo t)
            = some (reason, price, r) := by
          have h2 := congrArg Prod.snd hstep
          simpa [step_trade] using h2
        have hv := exit_check_r_values rrr hi lo _ reason price r hex
        rw [hmem]
        simpa [mkRecord] using hv
      · exact ih rec (by rw [hrest]; exact hmem)

/-- The multi-trade row step preserves the r-multiple value invariant. -/
theorem process_row_multi_r_values (u : Bool) (rrr betr : ℚ) (hc lc : String)
    (st : List Trade × List TradeRecord) (row : Row)
    (hst : ∀ rec ∈ st.2,
      rec.rMultiple = -1 ∨ rec.rMultiple = 0 ∨ rec.rMultiple = rrr) :
    ∀ rec ∈ (process_row_multi u rrr betr hc lc st row).2,
      rec.rMultiple = -1 ∨ rec.rMultiple = 0 ∨ rec.rMultiple = rrr := by
  intro rec hmem
  unfold process_row_multi at hmem
  rcases hpt : process_trades u rrr (row.get hc) (row.get lc) row.index st.1 with
    ⟨a2, recs⟩
  rw [hpt] at hmem
  have hrecs : ∀ r0 ∈ recs,
      r0.rMultiple = -1 ∨ r0.rMultiple = 0 ∨ r0.rMultiple = rrr := by
    intro r0 h0
    exact process_trades_r_values u rrr (row.get hc) (row.get lc) row.index
      st.1 r0 (by rw [hpt]; exact h0)
  rcases hop : try_open rrr betr row with _ | tN <;> rw [hop] at hmem <;>
      simp at hmem <;> rcases hmem with hmem | hmem
  · exact hst rec hmem
  · exact hrecs rec hmem
  · exact hst rec hmem
  · exact hrecs rec hmem

/-- The single-trade row step preserves the r-multiple value invariant. -/
theorem process_row_single_r_values (u : Bool) (rrr betr : ℚ) (hc lc : String)
    (st : Option Trade × List TradeRecord) (row : Row)
    (hst : ∀ rec ∈ st.2,
      rec.rMultiple = -1 ∨ rec.rMultiple = 0 ∨ rec.rMultiple = rrr) :
    ∀ rec ∈ (process_row_single u rrr betr hc lc st row).2,
      rec.rMultiple = -1 ∨ rec.rMultiple = 0 ∨ rec.rMultiple = rrr := by
  intro rec hmem
  rcases st with ⟨pos, log⟩
  cases pos with
  | none =>
    simp only [process_row_single] at hmem
    exact hst rec hmem
  | some t =>
    rcases hstep : step_trade u rrr (row.get hc) (row.get lc) t with ⟨t1, ex⟩
    simp only [process_row_single, hstep] at hmem
    cases ex with
    | none => exact hst rec (by simpa using hmem)
    | some exv =>
      rcases exv with ⟨reason, price, r⟩
      simp at hmem
      rcases hmem with hmem | hmem
      · exact hst rec hmem
      · have hex : exit_check rrr (row.get hc) (row.get lc)
            (be_update u (row.get hc) (row.get lc) t)
            = some (reason, price, r) := by
          have h2 := congrArg Prod.snd hstep
          simpa [step_trade] using h2
        have hv := exit_check_r_values rrr (row.get hc) (row.get lc) _
          reason price r hex
        rw [hmem]
        simpa [mkRecord] using hv

/-- C2: every trade record of a returned ledger carries an r-multiple of
exactly -1, 0 or the risk-reward parameter; moreover, once breakeven has
latched on a position, the per-bar step keeps it latched and any stop exit
it reports for that position carries r-multiple 0, never -1. -/
theorem r_multiple_values (df : DataFrame) (rrr : ℚ) (u : Bool) (betr : ℚ)
    (tf : String) (multi : Bool) (cb : Option (String → Unit)) (L : Ledger)
    (hok : run_r_backtest df rrr u betr tf multi cb = Except.ok L) :
    (∀ rec ∈ L.records,
      rec.rMultiple = -1 ∨ rec.rMultiple = 0 ∨ rec.rMultiple = rrr) ∧
    (∀ (hi lo : ℚ) (t : Trade), t.be_triggered = true →
      (step_trade u rrr hi lo t).1.be_triggered = true ∧
      ∀ price r, (step_trade u rrr hi lo t).2 = some ("Stop Loss", price, r) →
        r = 0) := by
  constructor
  · intro rec hmem
    unfold run_r_backtest at hok
    split_ifs at hok with hcols hmulti
    · injection hok with hok
      subst hok
      simp only [mkLedger] at hmem
      exact foldl_inv _
        (fun st => ∀ r0 ∈ st.2,
          r0.rMultiple = -1 ∨ r0.rMultiple = 0 ∨ r0.rMultiple = rrr)
        (fun s a hin => process_row_multi_r_values u rrr betr _ _ s a hin)
        df.rows ([], []) (by simp) rec hmem
    · injection hok with hok
      subst hok
      simp only [mkLedger] at hmem
      exact foldl_inv _
        (fun st => ∀ r0 ∈ st.2,
          r0.rMultiple = -1 ∨ r0.rMultiple = 0 ∨ r0.rMultiple = rrr)
        (fun s a hin => process_row_single_r_values u rrr betr _ _ s a hin)
        df.rows (Option.none, []) (by simp) rec hmem
  · intro hi lo t hbe
    refine ⟨be_update_latch u hi lo t hbe, ?_⟩
    intro price r h
    exact exit_check_latched_stop rrr hi lo _ price r
      (be_update_latch u hi lo t hbe) h

/-- Replacing one row of a fold by a row every state treats identically
leaves the fold unchanged. -/
theorem foldl_middle_congr {σ α : Type _} (f : σ → α → σ) (a b : α)
    (pre post : List α) (h : ∀ s, f s a = f s b) (init : σ) :
    List.foldl f init (pre ++ a :: post)
      = List.foldl f init (pre ++ b :: post) := by
  rw [List.foldl_append, List.foldl_append, List.foldl_cons, List.foldl_cons, h]

/-- Zeroing the signal of a row that opens nothing does not change the
single-trade row step. -/
theorem process_row_single_zero_signal (u : Bool) (rrr betr : ℚ)
    (hc lc : String) (row : Row) (hnone : try_open rrr betr row = none)
    (st : Option Trade × List TradeRecord) :
    process_row_single u rrr betr hc lc st row
      = process_row_single u rrr betr hc lc st { row with signal := 0 } := by
  have h0 : try_open rrr betr { row with signal := 0 } = none :=
    try_open_signal_zero rrr betr _ rfl
  have hg : ∀ c, ({ row with signal := 0 } : Row).get c = row.get c :=
    fun _ => rfl
  have hidx : ({ row with signal := 0 } : Row).index = row.index := rfl
  rcases st with ⟨pos, log⟩
  cases pos with
  | none => simp only [process_row_single, hg, hidx, hnone, h0]
  | some t =>
    rcases hstep : step_trade u rrr (row.get hc) (row.get lc) t with ⟨t1, ex⟩
    cases ex with
    | none => simp only [process_row_single, hg, hidx, hstep]
    | some exv =>
      rcases exv with ⟨reason, price, r⟩
      simp only [process_row_single, hg, hidx, hstep, hnone, h0]

/-- Zeroing the signal of a row that opens nothing does not change the
multi-trade row step. -/
theorem process_row_multi_zero_signal (u : Bool) (rrr betr : ℚ)
    (hc lc : String) (row : Row) (hnone : try_open rrr betr row = none)
    (st : List Trade × List TradeRecord) :
    process_row_multi u rrr betr hc lc st row
      = process_row_multi u rrr betr hc lc st { row with signal := 0 } := by
  have h0 : try_open rrr betr { row with signal := 0 } = none :=
    try_open_signal_zero rrr betr _ rfl
  have hg : ∀ c, ({ row with signal := 0 } : Row).get c = row.get c :=
    fun _ => rfl
  have hidx : ({ row with signal := 0 } : Row).index = row.index := rfl
  simp only [process_row_multi, hg, hidx, hnone, h0]

/-- C6: a signal whose entry or stop price is missing, or whose risk is zero,
never opens a position; replacing such a row by the same row with no signal
at all yields the identical result under every configuration, so the invalid
signal contributes no position, no trade record and no error, and the
simulation over the remaining rows is unchanged. -/
theorem invalid_signal_absorbed (rrr betr : ℚ) (row : Row)
    (h : invalid_signal_row row) :
    try_open rrr betr row = none ∧
    ∀ (cols : List String) (pre post : List Row) (u multi : Bool)
      (tf : String) (cb : Option (String → Unit)),
      run_r_backtest ⟨cols, pre ++ row :: post⟩ rrr u betr tf multi cb
        = run_r_backtest ⟨cols, pre ++ { row with signal := 0 } :: post⟩
            rrr u betr tf multi cb := by
  have hnone : try_open rrr betr row = none := try_open_invalid_none rrr betr row h
  refine ⟨hnone, ?_⟩
  intro cols pre post u multi tf cb
  unfold run_r_backtest
  dsimp only
  by_cases hcols : ("high_" ++ tf) ∈ cols ∧ ("low_" ++ tf) ∈ cols
  · rw [if_pos hcols, if_pos hcols]
    cases multi with
    | false =>
      rw [if_neg (by simp), if_neg (by simp)]
      rw [foldl_middle_congr
        (process_row_single u rrr betr ("high_" ++ tf) ("low_" ++ tf))
        row { row with signal := 0 } pre post
        (fun s => process_row_single_zero_signal u rrr betr _ _ row hnone s)
        (Option.none, [])]
    | true =>
      rw [if_pos rfl, if_pos rfl]
      rw [foldl_middle_congr
        (process_row_multi u rrr betr ("high_" ++ tf) ("low_" ++ tf))
        row { row with signal := 0 } pre post
        (fun s => process_row_multi_zero_signal u rrr betr _ _ row hnone s)
        ([], [])]
  · rw [if_neg hcols, if_neg hcols]

/-- Concrete run of C6: the zero-risk signal row `rowBad` opens nothing, and
a series containing it backtests exactly like the same series with the
signal removed. -/
theorem invalid_signal_absorbed_witness :
    invalid_signal_row rowBad ∧ try_open 2 1 rowBad = none ∧
    run_r_backtest ⟨["high_M1", "low_M1"], [rowBad]⟩ 2 false 1 "M1" false none
      = run_r_backtest ⟨["high_M1", "low_M1"], [{ rowBad with signal := 0 }]⟩
          2 false 1 "M1" false none := by
  have hinv : invalid_signal_row rowBad :=
    Or.inr (Or.inr ⟨100, 100, rfl, rfl, by norm_num⟩)
  have h := invalid_signal_absorbed 2 1 rowBad hinv
  exact ⟨hinv, h.1,
    by simpa using h.2 ["high_M1", "low_M1"] [] [] false false "M1" none⟩

/-- Bar 0 of the sample series opens `tradeA`. -/
theorem step_dfW0 :
    process_row_single true 2 1 "high_M1" "low_M1" (Option.none, []) rowW0
      = (some tradeA, []) := by
  simp [process_row_single, try_open, rowW0, tradeA] <;> norm_num

/-- Bar 1 of the sample series arms breakeven and stops out at the entry. -/
theorem step_dfW1 :
    process_row_single true 2 1 "high_M1" "low_M1" (some tradeA, []) rowW1
      = (Option.none, [recW]) := by
  simp [process_row_single, step_trade, be_update, exit_check, try_open,
    mkRecord, Row.get, List.lookup, rowW1, tradeA, recW] <;> norm_num

/-- Bar 2 of the sample series changes nothing. -/
theorem step_dfW2 :
    process_row_single true 2 1 "high_M1" "low_M1" (Option.none, [recW]) rowW2
      = (Option.none, [recW]) := by
  simp [process_row_single, try_open, rowW2]

/-- Full evaluation of the sample series in single-trade mode with breakeven
on, risk-reward 2 and breakeven trigger 1R. -/
theorem run_dfW :
    run_r_backtest dfW 2 true 1 "M1" false none = Except.ok ledgerW := by
  unfold run_r_backtest
  rw [if_pos (by simp [dfW]), if_neg (by simp)]
  rw [show ("high_" ++ "M1" : String) = "high_M1" from rfl,
      show ("low_" ++ "M1" : String) = "low_M1" from rfl,
      show dfW.rows = [rowW0, rowW1, rowW2] from rfl]
  rw [List.foldl_cons, step_dfW0, List.foldl_cons, step_dfW1, List.foldl_cons,
      step_dfW2, List.foldl_nil]
  simp [mkLedger, ledgerW]

/-- Concrete run of C2: on the sample series the engine returns one record,
and every record carries an r-multiple in the allowed set. -/
theorem r_multiple_values_witness :
    run_r_backtest dfW 2 true 1 "M1" false none = Except.ok ledgerW ∧
    ∀ rec ∈ ledgerW.records,
      rec.rMultiple = -1 ∨ rec.rMultiple = 0 ∨ rec.rMultiple = 2 :=
  ⟨run_dfW, (r_multiple_values dfW 2 true 1 "M1" false none ledgerW run_dfW).1⟩

/-- C7 counterexample: on an empty input series with the required columns the
engine raises nothing and returns an empty ledger, but that ledger has an
empty column index — it does not carry the output schema columns, contrary
to the claim. -/
theorem empty_input_lacks_schema_cex :
    run_r_backtest ⟨["high_M1", "low_M1"], []⟩ 2 false 1 "M1" false none
      = Except.ok { columns := [], records := [] } ∧
    "Entry Time" ∈ ledger_schema ∧
    ¬ ("Entry Time" ∈ ([] : List String)) := by
  refine ⟨?_, by simp [ledger_schema], by simp⟩
  unfold run_r_backtest
  rw [if_pos (by simp), if_neg (by simp)]
  simp [mkLedger]

/-- C7 amended: an empty input series with the required execution-timeframe
columns present yields, with no error, the empty ledger — which carries an
empty column index rather than the output schema columns, because the frame
constructor derives its columns from the (absent) records. -/
theorem empty_input_empty_ledger (rrr betr : ℚ) (u multi : Bool) (tf : String)
    (cols : List String) (cb : Option (String → Unit))
    (hhi : ("high_" ++ tf) ∈ cols) (hlo : ("low_" ++ tf) ∈ cols) :
    run_r_backtest ⟨cols, []⟩ rrr u betr tf multi cb
      = Except.ok { columns := [], records := [] } := by
  unfold run_r_backtest
  dsimp only
  rw [if_pos ⟨hhi, hlo⟩]
  cases multi <;> simp [mkLedger]

/-- Concrete run of the amended C7 on an empty two-column frame. -/
theorem empty_input_empty_ledger_witness :
    (("high_" ++ "M1" : String) ∈ ["high_M1", "low_M1"] ∧
      ("low_" ++ "M1" : String) ∈ ["high_M1", "low_M1"]) ∧
    run_r_backtest ⟨["high_M1", "low_M1"], []⟩ 2 false 1 "M1" true none
      = Except.ok { columns := [], records := [] } :=
  ⟨⟨by simp, by simp⟩,
   empty_input_empty_ledger 2 1 false true "M1" ["high_M1", "low_M1"] none
     (by simp) (by simp)⟩

/-- The per-bar step never changes the entry time of the open position. -/
theorem step_trade_entry_time (u : Bool) (rrr hi lo : ℚ) (t : Trade) :
    (step_trade u rrr hi lo t).1.entry_time = t.entry_time :=
  be_update_entry_time u hi lo t

/-- Trace invariant of the single-trade branch: with time-ordered rows, the
accumulated log stays chained (each record exits at or before the next
entry), every logged exit is at or before all remaining rows, and at or
before the entry of the open position. -/
theorem run_single_chain (u : Bool) (rrr betr : ℚ) (hc lc : String) :
    ∀ (rows : List Row) (pos : Option Trade) (log : List TradeRecord),
      List.Pairwise (fun a b : Row => a.index ≤ b.index) rows →
      List.Chain' (fun r1 r2 : TradeRecord => r1.exitTime ≤ r2.entryTime) log →
      (∀ rec ∈ log, ∀ r ∈ rows, rec.exitTime ≤ r.index) →
      (∀ t, pos = some t → ∀ rec ∈ log, rec.exitTime ≤ t.entry_time) →
      List.Chain' (fun r1 r2 : TradeRecord => r1.exitTime ≤ r2.entryTime)
        (List.foldl (process_row_single u rrr betr hc lc) (pos, log) rows).2 := by
  intro rows
  induction rows with
  | nil =>
    intro pos log _ hchain _ _
    simpa using hchain
  | cons row rest ih =>
    intro pos log hpw hchain hbound hpos
    rw [List.foldl_cons]
    have hhead : ∀ r ∈ rest, row.index ≤ r.index :=
      (List.pairwise_cons.mp hpw).1
    have hpw2 : List.Pairwise (fun a b : Row => a.index ≤ b.index) rest :=
      (List.pairwise_cons.mp hpw).2
    cases pos with
    | none =>
      have hstep_eq : process_row_single u rrr betr hc lc (Option.none, log) row
          = (try_open rrr betr row, log) := by
        simp only [process_row_single]
      rw [hstep_eq]
      apply ih _ log hpw2 hchain
      · intro rec hrec r hr
        exact hbound rec hrec r (List.mem_cons_of_mem row hr)
      · intro t ht rec hrec
        rw [try_open_entry_time rrr betr row t ht]
        exact hbound rec hrec row (List.mem_cons_self row rest)
    | some t =>
      rcases hstep : step_trade u rrr (row.get hc) (row.get lc) t with ⟨t1, ex⟩
      have hT1 : t1.entry_time = t.entry_time := by
        have h2 := congrArg Prod.fst hstep
        simp only at h2
        rw [← h2]
        exact step_trade_entry_time u rrr (row.get hc) (row.get lc) t
      cases ex with
      | none =>
        have hstep_eq : process_row_single u rrr betr hc lc (some t, log) row
            = (some t1, log) := by
          simp only [process_row_single, hstep]
        rw [hstep_eq]
        apply ih _ log hpw2 hchain
        · intro rec hrec r hr
          exact hbound rec hrec r (List.mem_cons_of_mem row hr)
        · intro t2 ht2 rec hrec
          injection ht2 with ht2
          subst ht2
          rw [hT1]
          exact hpos t rfl rec hrec
      | some exv =>
        rcases exv with ⟨reason, price, r⟩
        have hstep_eq : process_row_single u rrr betr hc lc (some t, log) row
            = (try_open rrr betr row,
               log ++ [mkRecord t1 row.index reason price r]) := by
          simp only [process_row_single, hstep]
        rw [hstep_eq]
        have hrec0x : (mkRecord t1 row.index reason price r).exitTime
            = row.index := rfl
        have hrec0e : (mkRecord t1 row.index reason price r).entryTime
            = t.entry_time := by
          simp [mkRecord, hT1]
        apply ih _ _ hpw2
        · apply chain_append_one _ _ hchain
          intro x hx
          rw [hrec0e]
          exact hpos t rfl x hx
        · intro rec hrec r2 hr2
          rcases List.mem_append.mp hrec with hrec | hrec
          · exact hbound rec hrec r2 (List.mem_cons_of_mem row hr2)
          · have heq : rec = mkRecord t1 row.index reason price r := by
              simpa using hrec
            rw [heq, hrec0x]
            exact hhead r2 hr2
        · intro t2 ht2 rec hrec
          rw [try_open_entry_time rrr betr row t2 ht2]
          rcases List.mem_append.mp hrec with hrec | hrec
          · exact hbound rec hrec row (List.mem_cons_self row rest)
          · have heq : rec = mkRecord t1 row.index reason price r := by
              simpa using hrec
            rw [heq, hrec0x]

/-- C8: in single-position mode, on a time-ordered input series, the trade
lifetimes never overlap: every consecutive pair of ledger records satisfies
that the next entry time is at or after the previous exit time. -/
theorem single_mode_trades_disjoint (df : DataFrame) (rrr : ℚ) (u : Bool)
    (betr : ℚ) (tf : String) (cb : Option (String → Unit)) (L : Ledger)
    (hmono : List.Pairwise (fun a b : Row => a.index ≤ b.index) df.rows)
    (hok : run_r_backtest df rrr u betr tf false cb = Except.ok L) :
    List.Chain' (fun r1 r2 : TradeRecord => r1.exitTime ≤ r2.entryTime)
      L.records := by
  unfold run_r_backtest at hok
  by_cases hcols : ("high_" ++ tf) ∈ df.columns ∧ ("low_" ++ tf) ∈ df.columns
  · rw [if_pos hcols, if_neg (by simp)] at hok
    injection hok with hok
    subst hok
    simp only [mkLedger]
    apply run_single_chain u rrr betr _ _ df.rows Option.none [] hmono
    · simp
    · simp
    · intro t ht
      cases ht
  · rw [if_neg hcols] at hok
    cases hok

/-- Concrete run of C8: on the sample series the single record trivially
forms a non-overlapping chain, via the theorem applied to the sample run. -/
theorem single_mode_trades_disjoint_witness :
    List.Pairwise (fun a b : Row => a.index ≤ b.index) dfW.rows ∧
    List.Chain' (fun r1 r2 : TradeRecord => r1.exitTime ≤ r2.entryTime)
      ledgerW.records :=
  ⟨by decide,
   single_mode_trades_disjoint dfW 2 true 1 "M1" none ledgerW (by decide)
     run_dfW⟩

end Backtester
